import Mathlib

/-!
Verification of the `disk_free` Ansible module (src/disk_free.py).

The module measures free space and free inodes of a filesystem, compares
against minimum thresholds, optionally deletes user-supplied files or glob
patterns to reclaim space, re-measures, and reports a structured result.

The shallow embedding below translates the source functions:
  * `unit_map`      — the unit-name → byte-multiplier table;
  * `run_check`     — the threshold check;
  * `remove_files`  — glob expansion, device filter, and removal loop,
                      over an abstract filesystem model (a list of entries,
                      each carrying a path, a device id, and an entry kind);
  * `build_result`  — result construction with usage percentages;
  * `run_module`    — the orchestrator.

Python evaluates these expressions in IEEE binary64 arithmetic.  A single
true division `int(a/b)` of non-negative integers agrees with exact floor
division whenever the quantities involved are below `2^53`, so the scaled
`free`/`size` fields and the `run_check` comparison are modelled as exact
floor division on `Nat` (that idealization is documented where used).  The
percentage expressions `100-int(math.floor(free/size*100))`, however,
round twice — once in the division and once in the multiplication by 100 —
and the double rounding changes the result at ordinary magnitudes (e.g.
`free/size = 29/100` gives 72, not the exact `100 - floor(29*100/100) = 71`).
These are therefore modelled bit-faithfully with an executable binary64
round-to-nearest-even model (`roundPosRat` below), valid for values in the
double's normal range (which covers every realizable filesystem figure).
Division by zero (Python `ZeroDivisionError`, a subclass of
`ArithmeticError`) is modelled by `Except`.  Glob matching is abstracted as a relation
`globMatch : pattern → path → Bool`, with `glob.glob` returning exactly the
existing paths that match; `os.statvfs`/`get_free` is abstracted as a
function `measure` from the current filesystem contents to a stat snapshot.
Filesystem removal operations are modelled as always succeeding (the
success path of the source; a failing removal raises in Python and no
value is returned).
-/

/-- A filesystem stat snapshot, as produced by `get_free`:
byte-granular size and free space, inode total and free counts. -/
structure FsStat where
  size : Nat
  free : Nat
  inodes : Nat
  ifree : Nat
deriving DecidableEq, Repr

/-- The `stat` sub-dictionary built by `build_result`.  `usage` and
`inode_usage` are `Int` because Python's `100 - floor(...)` can in
principle go negative if `free > size`. -/
structure StatRes where
  free : Nat
  size : Nat
  usage : Int
  inode_free : Nat
  inode_count : Nat
  inode_usage : Int
deriving DecidableEq, Repr

/-- The full result dictionary built by `build_result`. -/
structure BuildRes where
  changed : Bool
  stat : StatRes
deriving DecidableEq, Repr

/-- The `unit_map` table from the source: unit name to byte multiplier;
`none` for a name outside the table (the harness validates choices). -/
def unit_map : String → Option Nat
  | "byte" => some 1
  | "kB" => some 1000
  | "KiB" => some 1024
  | "MB" => some (1000 ^ 2)
  | "MiB" => some (1024 ^ 2)
  | "GB" => some (1000 ^ 3)
  | "GiB" => some (1024 ^ 3)
  | "TB" => some (1000 ^ 4)
  | "TiB" => some (1024 ^ 4)
  | "PB" => some (1000 ^ 5)
  | "PiB" => some (1024 ^ 5)
  | "EB" => some (1000 ^ 6)
  | "EiB" => some (1024 ^ 6)
  | _ => none

/-- `run_check(fstat, unit, want_free, want_ifree)` from the source:
returns `false` if `int(fstat['free']/unit) < want_free`, `false` if
`fstat['ifree'] < want_ifree`, else `true`.  Thresholds are `Int` since
the harness's `int` type admits negative values. -/
def run_check (fstat : FsStat) (unitMul : Nat) (want_free want_ifree : Int) : Bool :=
  if ((fstat.free / unitMul : Nat) : Int) < want_free then false
  else if (fstat.ifree : Int) < want_ifree then false
  else true

/- ### Binary64 model for the percentage expressions

CPython evaluates `free/size*100` at lines 183/186 of the source as two
IEEE binary64 operations: the division and then the multiplication by
100, each rounded to nearest, ties to even.  The model below computes
both roundings exactly with integer arithmetic.  A finite positive
double is represented as `m * 2^e` with a 53-bit significand; zero is
`m = 0`.  Subnormals and overflow to infinity are outside the model (the
operands of interest are ratios of filesystem figures, far inside the
normal range). -/

/-- Floor of the base-2 logarithm, by fuel recursion (`fuel ≥ n`
suffices); kernel-computable, unlike the well-founded `Nat.log2`. -/
def log2fuel : Nat → Nat → Nat
  | 0, _ => 0
  | fuel + 1, n => if n ≤ 1 then 0 else log2fuel fuel (n / 2) + 1

/-- Floor of the base-2 logarithm of `n` (0 for `n = 0`). -/
def ilog2 (n : Nat) : Nat := log2fuel n n

/-- Decides `2 ^ e ≤ n / d` over the rationals by integer arithmetic. -/
def pow2LE (e : Int) (n d : Nat) : Bool :=
  if 0 ≤ e then 2 ^ e.toNat * d ≤ n else d ≤ n * 2 ^ (-e).toNat

/-- The binade exponent of the positive rational `n / d`: the `e` with
`2 ^ e ≤ n / d < 2 ^ (e + 1)`. -/
def ratExp (n d : Nat) : Int :=
  if pow2LE ((ilog2 n : Int) - (ilog2 d : Int)) n d then
    (ilog2 n : Int) - (ilog2 d : Int)
  else (ilog2 n : Int) - (ilog2 d : Int) - 1

/-- Scale `n / d` by `2 ^ (52 - e)`, as a numerator/denominator pair. -/
def scaleNum (n d : Nat) (e : Int) : Nat × Nat :=
  if 0 ≤ 52 - e then (n * 2 ^ (52 - e).toNat, d) else (n, d * 2 ^ (e - 52).toNat)

/-- Round `num / den` to the nearest integer, ties to even. -/
def rne (num den : Nat) : Nat :=
  if den < 2 * (num % den) then num / den + 1
  else if 2 * (num % den) < den then num / den
  else num / den + num / den % 2

/-- A non-negative binary64 value `m * 2 ^ e`: `m = 0` encodes zero,
otherwise `m` is the 53-bit significand in `[2^52, 2^53)`. -/
structure B64 where
  m : Nat
  e : Int
deriving DecidableEq, Repr

/-- The exact rational value of a `B64`. -/
def B64.val (x : B64) : ℚ := (x.m : ℚ) * (2 : ℚ) ^ x.e

/-- Round the positive rational `n / d` to the nearest binary64 value
(round to nearest, ties to even), for results in the normal range. -/
def roundPosRat (n d : Nat) : B64 :=
  if rne (scaleNum n d (ratExp n d)).1 (scaleNum n d (ratExp n d)).2 = 2 ^ 53 then
    ⟨2 ^ 52, ratExp n d - 51⟩
  else
    ⟨rne (scaleNum n d (ratExp n d)).1 (scaleNum n d (ratExp n d)).2, ratExp n d - 52⟩

/-- Binary64 true division `n / d` of two non-negative integers (Python
`n/d`), for `d > 0`. -/
def floatDiv (n d : Nat) : B64 :=
  if n = 0 then ⟨0, 0⟩ else roundPosRat n d

/-- Binary64 product of a `B64` with a non-negative integer, rounded
back to binary64 (Python `x*k`). -/
def b64MulNat (x : B64) (k : Nat) : B64 :=
  if x.m = 0 ∨ k = 0 then ⟨0, 0⟩
  else if 0 ≤ x.e then roundPosRat (x.m * k * 2 ^ x.e.toNat) 1
  else roundPosRat (x.m * k) (2 ^ (-x.e).toNat)

/-- `math.floor` of a non-negative `B64`, as an integer. -/
def b64Floor (x : B64) : Nat :=
  if 0 ≤ x.e then x.m * 2 ^ x.e.toNat else x.m / 2 ^ (-x.e).toNat

/-- `int(math.floor(n/d*100))` exactly as CPython evaluates it at lines
183 and 186 of the source: one binary64 division, one binary64
multiplication by 100, then the floor. -/
def pyPercentFloor (n d : Nat) : Nat :=
  b64Floor (b64MulNat (floatDiv n d) 100)

/-- `build_result(changed, fstat, unit)` from the source.  Python raises
`ZeroDivisionError` when `unit`, `fstat['size']` or `fstat['inodes']` is
zero (line 181 divides by `unit`, lines 183/186 by `size`/`inodes`);
modelled as `Except.error`.  The scaled `free` and `size` fields model
`int(a/b)` as exact floor division (exact below `2^53`); the two usage
percentages follow the binary64 evaluation of `free/size*100`
bit-for-bit via `pyPercentFloor`. -/
def build_result (changed : Bool) (fstat : FsStat) (unitMul : Nat) :
    Except Unit BuildRes :=
  if unitMul = 0 ∨ fstat.size = 0 ∨ fstat.inodes = 0 then .error ()
  else .ok
    { changed := changed
      stat :=
        { free := fstat.free / unitMul
          size := fstat.size / unitMul
          usage := (100 : Int) - (pyPercentFloor fstat.free fstat.size : Int)
          inode_free := fstat.ifree
          inode_count := fstat.inodes
          inode_usage := (100 : Int) - (pyPercentFloor fstat.ifree fstat.inodes : Int) } }

/- ### Filesystem model for `remove_files` -/

/-- What `os.path.isfile` / `os.path.isdir` report for an entry: a regular
file, a directory, or anything else (the source's removal loop skips the
last silently). -/
inductive EKind where
  | file
  | dir
  | other
deriving DecidableEq, Repr

/-- One filesystem entry: its path, the device id `os.stat` reports for
it, and its kind. -/
structure FSEntry where
  path : String
  dev : Nat
  kind : EKind
deriving DecidableEq, Repr

/-- The filesystem contents: the list of existing entries. -/
abbrev FS := List FSEntry

/-- `p` is `d` itself or lies strictly inside the directory `d`
(path-prefix with a separator), i.e. `p` disappears when `d` is removed
recursively by `shutil.rmtree`. -/
def isUnder (d p : String) : Bool := p == d || List.isPrefixOf (d ++ "/").data p.data

/-- One iteration of the source's removal loop (lines 167-173) on path
`p`: if `os.path.isfile(p)`, `os.remove(p)` deletes that single entry and
sets the flag; elif `os.path.isdir(p)`, `shutil.rmtree(p)` deletes the
directory and everything under it and sets the flag; otherwise (path
gone or other kind) nothing happens. -/
def rmPath (fs : FS) (p : String) : FS × Bool :=
  match fs.find? (fun e => e.path == p) with
  | some e =>
    match e.kind with
    | .file => (fs.filter (fun x => x.path != p), true)
    | .dir => (fs.filter (fun x => !(isUnder p x.path)), true)
    | .other => (fs, false)
  | none => (fs, false)

/-- The source's second loop: remove each path of `rm_list` in order,
threading the filesystem state and the `removal` flag. -/
def removeLoop : FS → List String → Bool → FS × Bool
  | fs, [], removal => (fs, removal)
  | fs, p :: rest, removal =>
    let r := rmPath fs p
    removeLoop r.1 rest (removal || r.2)

/-- The source's first loop (lines 159-165): for each pattern in order,
glob-expand it (the existing paths matching it) and keep each match whose
`os.stat(...).st_dev` equals the anchor device `pDev`. -/
def rm_candidates (globMatch : String → String → Bool) (fs : FS) (pDev : Nat)
    (delete : List String) : List String :=
  delete.flatMap fun pat =>
    (fs.filter fun e => globMatch pat e.path && e.dev == pDev).map (·.path)

/-- `remove_files(path, delete)` from the source: stat the anchor path
(`none` if it does not exist — Python raises), build the candidate list
from the original filesystem, then run the removal loop.  Returns the
final filesystem and the `removal` flag. -/
def remove_files (globMatch : String → String → Bool) (fs : FS) (path : String)
    (delete : List String) : Option (FS × Bool) :=
  match fs.find? (fun e => e.path == path) with
  | none => none
  | some anchor => some (removeLoop fs (rm_candidates globMatch fs anchor.dev delete) false)

/- ### Orchestrator -/

/-- How one invocation of `run_module` ends: `exit_json` success,
`fail_json` with a message, or a propagated component failure
(`StatError` from `get_free`, `ArithmeticError` from `build_result`,
`ReclaimError` when the anchor path cannot be stat-ed, and a parameter
error for a unit name outside the table). -/
inductive Outcome where
  | exitJson (r : BuildRes)
  | failJson (msg : String) (r : BuildRes)
  | statError
  | arithError
  | reclaimError
  | paramError
deriving DecidableEq, Repr

/-- The `'Not enough free space: have {free} {unit}, want {want} {unit}'`
message built at lines 234-235 and 250-251 of the source. -/
def mkMsg (free : Nat) (unitName : String) (want_free : Int) : String :=
  "Not enough free space: have " ++ toString free ++ " " ++ unitName ++
    ", want " ++ toString want_free ++ " " ++ unitName

/-- Line 216 of the source: `delete = [d.strip() for d in params.get('delete')]
if params.get('delete') else False` — an absent or empty list (both falsy)
means no reclamation permitted; otherwise each element is stripped. -/
def eff_delete : Option (List String) → Option (List String)
  | some l => if l.isEmpty then none else some (l.map String.trim)
  | none => none

/-- `run_module` from the source, over the abstract world: `measure`
models `get_free` of the target path as a function of the current
filesystem contents, `globMatch` models glob matching.  Returns the outcome
and the final filesystem contents. -/
def run_module (measure : FS → Option FsStat) (globMatch : String → String → Bool)
    (fs : FS) (path : String) (unitName : String)
    (want_free want_ifree : Int) (delete : Option (List String))
    (check_mode : Bool) : Outcome × FS :=
  match unit_map unitName with
  | none => (.paramError, fs)
  | some unit_multiple =>
    match measure fs with
    | none => (.statError, fs)
    | some fstat =>
      if run_check fstat unit_multiple want_free want_ifree then
        match build_result false fstat unit_multiple with
        | .error _ => (.arithError, fs)
        | .ok r => (.exitJson r, fs)
      else if check_mode || (eff_delete delete).isNone then
        match build_result false fstat unit_multiple with
        | .error _ => (.arithError, fs)
        | .ok r => (.failJson (mkMsg r.stat.free unitName want_free) r, fs)
      else
        match remove_files globMatch fs path ((eff_delete delete).getD []) with
        | none => (.reclaimError, fs)
        | some (fs2, files_cleared) =>
          match measure fs2 with
          | none => (.statError, fs2)
          | some fstat2 =>
            match build_result files_cleared fstat2 unit_multiple with
            | .error _ => (.arithError, fs2)
            | .ok r =>
              if run_check fstat2 unit_multiple want_free want_ifree then
                (.exitJson r, fs2)
              else (.failJson (mkMsg r.stat.free unitName want_free) r, fs2)

/- ### Threshold checker -/

/-- `run_check` returns `true` exactly when both thresholds are met. -/
lemma run_check_true_iff (s : FsStat) (u : Nat) (wf wi : Int) :
    run_check s u wf wi = true ↔
      (wf ≤ ((s.free / u : Nat) : Int) ∧ wi ≤ (s.ifree : Int)) := by
  unfold run_check
  rcases lt_or_le ((s.free / u : Nat) : Int) wf with h1 | h1
  · simp only [if_pos h1, Bool.false_eq_true, false_iff, not_and]
    intro h
    omega
  · rw [if_neg (not_lt.mpr h1)]
    rcases lt_or_le (s.ifree : Int) wi with h2 | h2
    · simp only [if_pos h2, Bool.false_eq_true, false_iff, not_and]
      intro h
      omega
    · rw [if_neg (not_lt.mpr h2)]
      simp only [true_iff]
      exact ⟨h1, h2⟩

/-- C2: for every snapshot, positive unit multiplier and non-negative
thresholds, `run_check` returns `true` iff
`floor(freeBytes / unitMultiplier) ≥ minFreeUnits` and
`freeInodes ≥ minFreeInodes`. -/
theorem run_check_iff (s : FsStat) (u : Nat) (wf wi : Int)
    (hu : 0 < u) (hwf : 0 ≤ wf) (hwi : 0 ≤ wi) :
    run_check s u wf wi = true ↔
      (wf ≤ ((s.free / u : Nat) : Int) ∧ wi ≤ (s.ifree : Int)) :=
  run_check_true_iff s u wf wi

/-- Witness for C2 at a concrete snapshot. -/
theorem run_check_iff_witness :
    run_check ⟨1000, 100, 50, 5⟩ 3 10 2 = true ↔
      ((10 : Int) ≤ ((100 / 3 : Nat) : Int) ∧ (2 : Int) ≤ ((5 : Nat) : Int)) :=
  run_check_iff ⟨1000, 100, 50, 5⟩ 3 10 2 (by decide) (by decide) (by decide)

/-- C7: raising either minimum threshold never turns an unsatisfied
check into a satisfied one. -/
theorem run_check_monotone (s : FsStat) (u : Nat) (a b a' b' : Int)
    (hu : 0 < u) (ha : a ≤ a') (hb : b ≤ b')
    (h : run_check s u a b = false) : run_check s u a' b' = false := by
  rw [← Bool.not_eq_true] at h ⊢
  rw [run_check_true_iff] at h ⊢
  intro hc
  exact h ⟨le_trans ha hc.1, le_trans hb hc.2⟩

/-- Witness for C7 at a concrete snapshot. -/
theorem run_check_monotone_witness : run_check ⟨1000, 100, 50, 5⟩ 1 200 0 = false :=
  run_check_monotone ⟨1000, 100, 50, 5⟩ 1 150 0 200 0 (by decide) (by decide)
    (by decide) (by decide)

/- ### Result builder -/

/- ### Bounds for the binary64 percentage model -/

/-- Correctness of the fuelled base-2 logarithm. -/
lemma log2fuel_spec : ∀ (fuel n : Nat), 0 < n → n ≤ fuel →
    2 ^ log2fuel fuel n ≤ n ∧ n < 2 ^ (log2fuel fuel n + 1) := by
  intro fuel
  induction fuel with
  | zero => intro n h1 h2; omega
  | succ fuel ih =>
    intro n h1 h2
    by_cases hle : n ≤ 1
    · have hn1 : n = 1 := by omega
      subst hn1
      norm_num [log2fuel]
    · have hrec := ih (n / 2) (by omega) (by omega)
      have heq : log2fuel (fuel + 1) n = log2fuel fuel (n / 2) + 1 := by
        simp [log2fuel, hle]
      rw [heq]
      set L := log2fuel fuel (n / 2) with hL
      have e1 : (2 : Nat) ^ (L + 1) = 2 * 2 ^ L := by ring
      have e2 : (2 : Nat) ^ (L + 1 + 1) = 2 * 2 ^ (L + 1) := by ring
      obtain ⟨hr1, hr2⟩ := hrec
      constructor
      · omega
      · omega

/-- `ilog2` is the floor of the base-2 logarithm. -/
lemma ilog2_spec (n : Nat) (hn : 0 < n) :
    2 ^ ilog2 n ≤ n ∧ n < 2 ^ (ilog2 n + 1) :=
  log2fuel_spec n n hn le_rfl

/-- `pow2LE` decides `2 ^ e ≤ n / d` over `ℚ`. -/
lemma pow2LE_iff (e : Int) (n d : Nat) (hd : 0 < d) :
    pow2LE e n d = true ↔ (2 : ℚ) ^ e ≤ (n : ℚ) / d := by
  have hd' : (0 : ℚ) < d := by exact_mod_cast hd
  unfold pow2LE
  split <;> rename_i he
  · have key : (2 : ℚ) ^ e = ((2 ^ e.toNat : Nat) : ℚ) := by
      conv_lhs => rw [← Int.toNat_of_nonneg he]
      rw [zpow_natCast]
      push_cast
      ring
    rw [decide_eq_true_iff, key, le_div_iff₀ hd']
    constructor
    · intro h
      exact_mod_cast h
    · intro h
      exact_mod_cast h
  · have he' : (0 : Int) ≤ -e := by omega
    have key : (2 : ℚ) ^ (-e) = ((2 ^ (-e).toNat : Nat) : ℚ) := by
      conv_lhs => rw [← Int.toNat_of_nonneg he']
      rw [zpow_natCast]
      push_cast
      ring
    have hcancel : (2 : ℚ) ^ e * (2 : ℚ) ^ (-e) = 1 := by
      rw [← zpow_add₀ (by norm_num : (2 : ℚ) ≠ 0)]
      simp
    have h2pos : (0 : ℚ) < (2 : ℚ) ^ (-e) := by positivity
    rw [decide_eq_true_iff, le_div_iff₀ hd']
    constructor
    · intro h
      have h' : (d : ℚ) ≤ (n : ℚ) * (2 : ℚ) ^ (-e) := by
        rw [key]
        exact_mod_cast h
      calc (2 : ℚ) ^ e * d ≤ (2 : ℚ) ^ e * ((n : ℚ) * (2 : ℚ) ^ (-e)) :=
            mul_le_mul_of_nonneg_left h' (by positivity)
        _ = (n : ℚ) * ((2 : ℚ) ^ e * (2 : ℚ) ^ (-e)) := by ring
        _ = n := by rw [hcancel, mul_one]
    · intro h
      have h' : (d : ℚ) ≤ (n : ℚ) * (2 : ℚ) ^ (-e) := by
        have hstep := mul_le_mul_of_nonneg_right h (le_of_lt h2pos)
        calc (d : ℚ) = (2 : ℚ) ^ e * d * (2 : ℚ) ^ (-e) := by
              rw [mul_comm ((2 : ℚ) ^ e) (d : ℚ), mul_assoc, hcancel, mul_one]
          _ ≤ (n : ℚ) * (2 : ℚ) ^ (-e) := hstep
      rw [key] at h'
      exact_mod_cast h'

/-- The chosen binade exponent is a lower bound for `n / d`. -/
lemma ratExp_le (n d : Nat) (hn : 0 < n) (hd : 0 < d) :
    (2 : ℚ) ^ ratExp n d ≤ (n : ℚ) / d := by
  have hd' : (0 : ℚ) < d := by exact_mod_cast hd
  unfold ratExp
  split <;> rename_i hp
  · exact (pow2LE_iff _ n d hd).mp hp
  · obtain ⟨hn1, _⟩ := ilog2_spec n hn
    obtain ⟨_, hd2⟩ := ilog2_spec d hd
    rw [le_div_iff₀ hd']
    have hb : (d : ℚ) ≤ ((2 ^ (ilog2 d + 1) : Nat) : ℚ) := by
      exact_mod_cast le_of_lt hd2
    have ha : ((2 ^ ilog2 n : Nat) : ℚ) ≤ (n : ℚ) := by exact_mod_cast hn1
    have hkey : (2 : ℚ) ^ ((ilog2 n : Int) - (ilog2 d : Int) - 1)
        * ((2 ^ (ilog2 d + 1) : Nat) : ℚ) = ((2 ^ ilog2 n : Nat) : ℚ) := by
      push_cast
      rw [← zpow_natCast (2 : ℚ) (ilog2 d + 1), ← zpow_natCast (2 : ℚ) (ilog2 n),
        ← zpow_add₀ (by norm_num : (2 : ℚ) ≠ 0)]
      congr 1
      push_cast
      ring
    calc (2 : ℚ) ^ ((ilog2 n : Int) - (ilog2 d : Int) - 1) * d
        ≤ (2 : ℚ) ^ ((ilog2 n : Int) - (ilog2 d : Int) - 1)
            * ((2 ^ (ilog2 d + 1) : Nat) : ℚ) :=
          mul_le_mul_of_nonneg_left hb (by positivity)
      _ = ((2 ^ ilog2 n : Nat) : ℚ) := hkey
      _ ≤ n := ha

/-- The scaled denominator stays positive. -/
lemma scaleNum_den_pos (n d : Nat) (e : Int) (hd : 0 < d) :
    0 < (scaleNum n d e).2 := by
  unfold scaleNum
  split
  · exact hd
  · exact Nat.mul_pos hd (pow_pos (by norm_num) _)

/-- The scaled pair represents `n / d * 2 ^ (52 - e)`. -/
lemma scaleNum_ratio (n d : Nat) (e : Int) (hd : 0 < d) :
    ((scaleNum n d e).1 : ℚ) / ((scaleNum n d e).2 : ℚ)
      = (n : ℚ) / d * (2 : ℚ) ^ (52 - e) := by
  have hd' : (0 : ℚ) < d := by exact_mod_cast hd
  unfold scaleNum
  split <;> rename_i hs
  · have key : (2 : ℚ) ^ (52 - e) = ((2 ^ (52 - e).toNat : Nat) : ℚ) := by
      conv_lhs => rw [← Int.toNat_of_nonneg hs]
      rw [zpow_natCast]
      push_cast
      ring
    rw [key]
    push_cast
    field_simp
  · have hs' : (0 : Int) ≤ e - 52 := by omega
    have key : (2 : ℚ) ^ (e - 52) = ((2 ^ (e - 52).toNat : Nat) : ℚ) := by
      conv_lhs => rw [← Int.toNat_of_nonneg hs']
      rw [zpow_natCast]
      push_cast
      ring
    rw [show (52 - e : Int) = -(e - 52) by ring, zpow_neg, key]
    push_cast
    field_simp

/-- Round-to-nearest overshoots by at most one half. -/
lemma rne_le (num den : Nat) (hd : 0 < den) :
    (rne num den : ℚ) ≤ (num : ℚ) / den + 1 / 2 := by
  have hd' : (0 : ℚ) < den := by exact_mod_cast hd
  have hkey : (num : ℚ) / den
      = ((num / den : Nat) : ℚ) + ((num % den : Nat) : ℚ) / den := by
    field_simp
    exact_mod_cast (Nat.div_add_mod' num den).symm
  unfold rne
  split <;> rename_i h1
  · have hr : (1 : ℚ) / 2 ≤ ((num % den : Nat) : ℚ) / den := by
      rw [div_le_div_iff₀ (by norm_num) hd']
      have h1' : (den : ℚ) < 2 * ((num % den : Nat) : ℚ) := by exact_mod_cast h1
      linarith
    rw [hkey]
    push_cast
    linarith
  · split <;> rename_i h2
    · rw [hkey]
      have hnn : (0 : ℚ) ≤ ((num % den : Nat) : ℚ) / den := by positivity
      linarith
    · have hmle : num / den % 2 ≤ 1 := by omega
      have hden2 : den = 2 * (num % den) := by omega
      have hr : ((num % den : Nat) : ℚ) / den = 1 / 2 := by
        rw [div_eq_div_iff hd'.ne' (by norm_num : (2 : ℚ) ≠ 0)]
        have hden2' : (den : ℚ) = 2 * ((num % den : Nat) : ℚ) := by exact_mod_cast hden2
        linarith
      rw [hkey, hr]
      push_cast
      have hc : ((num / den % 2 : Nat) : ℚ) ≤ 1 := by exact_mod_cast hmle
      linarith

/-- Relative error bound for `roundPosRat`: the rounded value exceeds
`n / d` by at most a factor `1 + 2 ^ (-53)`. -/
lemma roundPosRat_le (n d : Nat) (hn : 0 < n) (hd : 0 < d) :
    (roundPosRat n d).val ≤ (n : ℚ) / d * (1 + (2 : ℚ) ^ (-53 : Int)) := by
  have hden := scaleNum_den_pos n d (ratExp n d) hd
  have h1 := rne_le (scaleNum n d (ratExp n d)).1 (scaleNum n d (ratExp n d)).2 hden
  have h2 := scaleNum_ratio n d (ratExp n d) hd
  have h3 := ratExp_le n d hn hd
  have hval : (roundPosRat n d).val
      = (rne (scaleNum n d (ratExp n d)).1 (scaleNum n d (ratExp n d)).2 : ℚ)
          * (2 : ℚ) ^ (ratExp n d - 52) := by
    unfold roundPosRat
    split <;> rename_i hm
    · unfold B64.val
      rw [hm]
      have hcc : ((2 ^ 53 : Nat) : ℚ) = 2 * ((2 ^ 52 : Nat) : ℚ) := by norm_num
      have hee : (2 : ℚ) ^ (ratExp n d - 51) = 2 * (2 : ℚ) ^ (ratExp n d - 52) := by
        rw [show ratExp n d - 51 = (ratExp n d - 52) + 1 by ring,
          zpow_add₀ (by norm_num : (2 : ℚ) ≠ 0)]
        ring
      rw [hcc, hee]
      ring
    · unfold B64.val
      rfl
  rw [hval]
  have hppos : (0 : ℚ) < (2 : ℚ) ^ (ratExp n d - 52) := by positivity
  have hcancel : (2 : ℚ) ^ (52 - ratExp n d) * (2 : ℚ) ^ (ratExp n d - 52) = 1 := by
    rw [← zpow_add₀ (by norm_num : (2 : ℚ) ≠ 0)]
    rw [show (52 - ratExp n d) + (ratExp n d - 52) = 0 by ring]
    exact zpow_zero 2
  have hhalf : (1 : ℚ) / 2 * (2 : ℚ) ^ (ratExp n d - 52)
      ≤ (n : ℚ) / d * (2 : ℚ) ^ (-53 : Int) := by
    have he : (1 : ℚ) / 2 * (2 : ℚ) ^ (ratExp n d - 52)
        = (2 : ℚ) ^ ratExp n d * (2 : ℚ) ^ (-53 : Int) := by
      rw [show (1 : ℚ) / 2 = (2 : ℚ) ^ (-1 : Int) by norm_num]
      rw [← zpow_add₀ (by norm_num : (2 : ℚ) ≠ 0), ← zpow_add₀ (by norm_num : (2 : ℚ) ≠ 0)]
      congr 1
      ring
    rw [he]
    exact mul_le_mul_of_nonneg_right h3 (by positivity)
  calc (rne (scaleNum n d (ratExp n d)).1 (scaleNum n d (ratExp n d)).2 : ℚ)
        * (2 : ℚ) ^ (ratExp n d - 52)
      ≤ (((scaleNum n d (ratExp n d)).1 : ℚ) / ((scaleNum n d (ratExp n d)).2 : ℚ) + 1 / 2)
          * (2 : ℚ) ^ (ratExp n d - 52) :=
        mul_le_mul_of_nonneg_right h1 (le_of_lt hppos)
    _ = ((n : ℚ) / d * (2 : ℚ) ^ (52 - ratExp n d) + 1 / 2)
          * (2 : ℚ) ^ (ratExp n d - 52) := by rw [h2]
    _ = (n : ℚ) / d * ((2 : ℚ) ^ (52 - ratExp n d) * (2 : ℚ) ^ (ratExp n d - 52))
          + 1 / 2 * (2 : ℚ) ^ (ratExp n d - 52) := by ring
    _ = (n : ℚ) / d + 1 / 2 * (2 : ℚ) ^ (ratExp n d - 52) := by rw [hcancel, mul_one]
    _ ≤ (n : ℚ) / d + (n : ℚ) / d * (2 : ℚ) ^ (-53 : Int) := by linarith
    _ = (n : ℚ) / d * (1 + (2 : ℚ) ^ (-53 : Int)) := by ring

/-- Relative error bound for the binary64 product with an integer. -/
lemma b64MulNat_le (x : B64) (k : Nat) (hm : x.m ≠ 0) (hk : 0 < k) :
    (b64MulNat x k).val ≤ x.val * k * (1 + (2 : ℚ) ^ (-53 : Int)) := by
  unfold b64MulNat
  rw [if_neg (by push_neg; exact ⟨hm, by omega⟩)]
  split <;> rename_i he
  · have hpos : 0 < x.m * k * 2 ^ x.e.toNat :=
      Nat.mul_pos (Nat.mul_pos (Nat.pos_of_ne_zero hm) hk) (pow_pos (by norm_num) _)
    calc (roundPosRat (x.m * k * 2 ^ x.e.toNat) 1).val
        ≤ ((x.m * k * 2 ^ x.e.toNat : Nat) : ℚ) / ((1 : Nat) : ℚ)
            * (1 + (2 : ℚ) ^ (-53 : Int)) :=
          roundPosRat_le (x.m * k * 2 ^ x.e.toNat) 1 hpos (by norm_num)
      _ = x.val * k * (1 + (2 : ℚ) ^ (-53 : Int)) := by
          unfold B64.val
          push_cast
          rw [← zpow_natCast (2 : ℚ) x.e.toNat, Int.toNat_of_nonneg he]
          ring
  · have hpos : 0 < x.m * k := Nat.mul_pos (Nat.pos_of_ne_zero hm) hk
    have hdpos : 0 < 2 ^ (-x.e).toNat := pow_pos (by norm_num) (-x.e).toNat
    calc (roundPosRat (x.m * k) (2 ^ (-x.e).toNat)).val
        ≤ ((x.m * k : Nat) : ℚ) / ((2 ^ (-x.e).toNat : Nat) : ℚ)
            * (1 + (2 : ℚ) ^ (-53 : Int)) :=
          roundPosRat_le (x.m * k) (2 ^ (-x.e).toNat) hpos hdpos
      _ = x.val * k * (1 + (2 : ℚ) ^ (-53 : Int)) := by
          unfold B64.val
          have key : ((2 ^ (-x.e).toNat : Nat) : ℚ) = (2 : ℚ) ^ (-x.e) := by
            push_cast
            rw [← zpow_natCast (2 : ℚ) (-x.e).toNat,
              Int.toNat_of_nonneg (by omega : (0 : Int) ≤ -x.e)]
          rw [key, zpow_neg, div_inv_eq_mul]
          push_cast
          ring

/-- The floor of a `B64` does not exceed its value. -/
lemma b64Floor_le (x : B64) : ((b64Floor x : Nat) : ℚ) ≤ x.val := by
  unfold b64Floor B64.val
  split <;> rename_i he
  · push_cast
    rw [← zpow_natCast (2 : ℚ) x.e.toNat, Int.toNat_of_nonneg he]
  · have key : ((2 ^ (-x.e).toNat : Nat) : ℚ) = (2 : ℚ) ^ (-x.e) := by
      push_cast
      rw [← zpow_natCast (2 : ℚ) (-x.e).toNat,
        Int.toNat_of_nonneg (by omega : (0 : Int) ≤ -x.e)]
    calc ((x.m / 2 ^ (-x.e).toNat : Nat) : ℚ)
        ≤ (x.m : ℚ) / ((2 ^ (-x.e).toNat : Nat) : ℚ) := Nat.cast_div_le
      _ = (x.m : ℚ) * (2 : ℚ) ^ x.e := by rw [key, zpow_neg, div_inv_eq_mul]

/-- The binary64-evaluated percentage floor never exceeds 100 when the
numerator does not exceed the denominator. -/
lemma pyPercentFloor_le_100 (n d : Nat) (hd : 0 < d) (hnd : n ≤ d) :
    pyPercentFloor n d ≤ 100 := by
  by_cases hn : n = 0
  · subst hn
    simp [pyPercentFloor, floatDiv, b64MulNat, b64Floor]
  · unfold pyPercentFloor floatDiv
    rw [if_neg hn]
    by_cases hm : (roundPosRat n d).m = 0
    · simp [b64MulNat, hm, b64Floor]
    · have hd' : (0 : ℚ) < d := by exact_mod_cast hd
      have hq : (0 : ℚ) < 1 + (2 : ℚ) ^ (-53 : Int) := by positivity
      have hr : (n : ℚ) / d ≤ 1 := by
        rw [div_le_one hd']
        exact_mod_cast hnd
      have h1 : (roundPosRat n d).val ≤ 1 + (2 : ℚ) ^ (-53 : Int) := by
        calc (roundPosRat n d).val
            ≤ (n : ℚ) / d * (1 + (2 : ℚ) ^ (-53 : Int)) :=
              roundPosRat_le n d (Nat.pos_of_ne_zero hn) hd
          _ ≤ 1 * (1 + (2 : ℚ) ^ (-53 : Int)) :=
              mul_le_mul_of_nonneg_right hr (le_of_lt hq)
          _ = 1 + (2 : ℚ) ^ (-53 : Int) := one_mul _
      have h2 : (b64MulNat (roundPosRat n d) 100).val
          ≤ (1 + (2 : ℚ) ^ (-53 : Int)) * 100 * (1 + (2 : ℚ) ^ (-53 : Int)) := by
        calc (b64MulNat (roundPosRat n d) 100).val
            ≤ (roundPosRat n d).val * 100 * (1 + (2 : ℚ) ^ (-53 : Int)) :=
              b64MulNat_le _ 100 hm (by norm_num)
          _ ≤ (1 + (2 : ℚ) ^ (-53 : Int)) * 100 * (1 + (2 : ℚ) ^ (-53 : Int)) := by
              apply mul_le_mul_of_nonneg_right _ (le_of_lt hq)
              apply mul_le_mul_of_nonneg_right h1 (by norm_num)
      have h3 : ((b64Floor (b64MulNat (roundPosRat n d) 100) : Nat) : ℚ) < 101 := by
        calc ((b64Floor (b64MulNat (roundPosRat n d) 100) : Nat) : ℚ)
            ≤ (b64MulNat (roundPosRat n d) 100).val := b64Floor_le _
          _ ≤ (1 + (2 : ℚ) ^ (-53 : Int)) * 100 * (1 + (2 : ℚ) ^ (-53 : Int)) := h2
          _ < 101 := by norm_num
      have h4 : b64Floor (b64MulNat (roundPosRat n d) 100) < 101 := by exact_mod_cast h3
      omega

/-- C4 counterexample: at `free = 29`, `size = 100` (any common scale,
e.g. 29 GiB free of 100 GiB) the program's usage is 72 — CPython
evaluates `29/100*100` to `28.999999999999996`, whose floor is 28 —
while the claimed exact formula `100 - floor(free*100/size)` yields 71. -/
theorem build_result_usage_cex :
    build_result false ⟨100, 29, 100, 29⟩ 1 = .ok ⟨false, ⟨29, 100, 72, 29, 100, 72⟩⟩ ∧
    (100 : Int) - ((29 * 100 / 100 : Nat) : Int) = 71 ∧ (72 : Int) ≠ 71 :=
  ⟨rfl, by decide, by decide⟩

/-- C4 (amended): when totals are positive and free counts do not exceed
them, each usage percentage is 100 minus the binary64 evaluation of
`free/total*100` (one correctly rounded division, one correctly rounded
multiplication, then the floor) — the double rounding can differ by one
percentage point from the exact `100 - floor(free*100/total)` — and both
percentages always lie in the range 0 to 100 inclusive. -/
theorem build_result_usage_bounds (c : Bool) (s : FsStat) (u : Nat) (r : BuildRes)
    (hs : 0 < s.size) (hi : 0 < s.inodes)
    (hf : s.free ≤ s.size) (hif : s.ifree ≤ s.inodes)
    (hb : build_result c s u = .ok r) :
    r.stat.usage = 100 - (pyPercentFloor s.free s.size : Int) ∧
    r.stat.inode_usage = 100 - (pyPercentFloor s.ifree s.inodes : Int) ∧
    0 ≤ r.stat.usage ∧ r.stat.usage ≤ 100 ∧
    0 ≤ r.stat.inode_usage ∧ r.stat.inode_usage ≤ 100 := by
  have h1 := pyPercentFloor_le_100 s.free s.size hs hf
  have h2 := pyPercentFloor_le_100 s.ifree s.inodes hi hif
  unfold build_result at hb
  split at hb
  · exact absurd hb (by simp)
  · rw [Except.ok.injEq] at hb
    subst hb
    refine ⟨rfl, rfl, ?_, ?_, ?_, ?_⟩
    · show (0 : Int) ≤ 100 - (pyPercentFloor s.free s.size : Int)
      omega
    · show (100 : Int) - (pyPercentFloor s.free s.size : Int) ≤ 100
      omega
    · show (0 : Int) ≤ 100 - (pyPercentFloor s.ifree s.inodes : Int)
      omega
    · show (100 : Int) - (pyPercentFloor s.ifree s.inodes : Int) ≤ 100
      omega

/-- Witness for C4 (amended) at a concrete snapshot: 100 free of 1000
gives usage `100 - floor(float(0.1)*float(100)) = 90`, 5 free of 50
likewise 90. -/
theorem build_result_usage_bounds_witness :
    build_result false ⟨1000, 100, 50, 5⟩ 3 = .ok ⟨false, ⟨33, 333, 90, 5, 50, 90⟩⟩ ∧
    ((⟨false, ⟨33, 333, 90, 5, 50, 90⟩⟩ : BuildRes).stat.usage
        = 100 - (pyPercentFloor 100 1000 : Int) ∧
     (⟨false, ⟨33, 333, 90, 5, 50, 90⟩⟩ : BuildRes).stat.inode_usage
        = 100 - (pyPercentFloor 5 50 : Int) ∧
     (0 : Int) ≤ 90 ∧ (90 : Int) ≤ 100 ∧ (0 : Int) ≤ 90 ∧ (90 : Int) ≤ 100) :=
  ⟨rfl, build_result_usage_bounds false ⟨1000, 100, 50, 5⟩ 3
    ⟨false, ⟨33, 333, 90, 5, 50, 90⟩⟩ (by decide) (by decide) (by decide) (by decide) rfl⟩

/-- C5: with a valid (non-zero) unit multiplier, `build_result` fails
exactly when the snapshot's total size or total inode count is zero. -/
theorem build_result_error_iff (c : Bool) (s : FsStat) (u : Nat) (hu : u ≠ 0) :
    build_result c s u = .error () ↔ (s.size = 0 ∨ s.inodes = 0) := by
  unfold build_result
  split <;> rename_i h
  · simp only [true_iff]
    tauto
  · simp only [reduceCtorEq, false_iff]
    tauto

/-- Witness for C5 at a concrete degenerate snapshot. -/
theorem build_result_error_iff_witness :
    build_result true ⟨0, 0, 7, 7⟩ 5 = .error () ↔ ((0 : Nat) = 0 ∨ (7 : Nat) = 0) :=
  build_result_error_iff true ⟨0, 0, 7, 7⟩ 5 (by decide)

/-- C6: for a non-degenerate snapshot and a valid unit multiplier, the
`free` field of the built result is `floor(freeBytes / unitMultiplier)`. -/
theorem build_result_free_units (s : FsStat) (u : Nat)
    (hs : 0 < s.size) (hi : 0 < s.inodes) (hu : 0 < u) :
    ∃ r, build_result false s u = .ok r ∧ r.stat.free = s.free / u := by
  unfold build_result
  rw [if_neg (by omega : ¬(u = 0 ∨ s.size = 0 ∨ s.inodes = 0))]
  exact ⟨_, rfl, rfl⟩

/-- Witness for C6 at a concrete snapshot. -/
theorem build_result_free_units_witness :
    ∃ r, build_result false ⟨1000, 100, 50, 5⟩ 3 = .ok r ∧ r.stat.free = 100 / 3 :=
  build_result_free_units ⟨1000, 100, 50, 5⟩ 3 (by decide) (by decide) (by decide)

/- ### Reclaimer lemmas -/

/-- One removal step only ever drops entries. -/
lemma rmPath_sublist (fs : FS) (p : String) : (rmPath fs p).1.Sublist fs := by
  cases hf : fs.find? (fun e => e.path == p) with
  | none => simp [rmPath, hf]
  | some e =>
    cases hk : e.kind with
    | file => simp [rmPath, hf, hk]
    | dir => simp [rmPath, hf, hk]
    | other => simp [rmPath, hf, hk]

/-- If a removal step reports no removal, the filesystem is unchanged. -/
lemma rmPath_false_fst (fs : FS) (p : String) (h : (rmPath fs p).2 = false) :
    (rmPath fs p).1 = fs := by
  cases hf : fs.find? (fun e => e.path == p) with
  | none => simp [rmPath, hf]
  | some e =>
    cases hk : e.kind with
    | file => simp [rmPath, hf, hk] at h
    | dir => simp [rmPath, hf, hk] at h
    | other => simp [rmPath, hf, hk]

/-- If a removal step reports a removal, some entry really disappeared. -/
lemma rmPath_true_removes (fs : FS) (p : String) (h : (rmPath fs p).2 = true) :
    ∃ e, e ∈ fs ∧ e ∉ (rmPath fs p).1 := by
  cases hf : fs.find? (fun e => e.path == p) with
  | none => simp [rmPath, hf] at h
  | some e =>
    have hmem : e ∈ fs := List.mem_of_find?_eq_some hf
    have hp : e.path = p := by simpa using List.find?_some hf
    cases hk : e.kind with
    | file =>
      refine ⟨e, hmem, ?_⟩
      intro hcon
      rw [rmPath] at hcon
      simp only [hf, hk] at hcon
      rw [List.mem_filter] at hcon
      simp [hp] at hcon
    | dir =>
      refine ⟨e, hmem, ?_⟩
      intro hcon
      rw [rmPath] at hcon
      simp only [hf, hk] at hcon
      rw [List.mem_filter] at hcon
      have hu : isUnder p e.path = true := by simp [isUnder, hp]
      simp [hu] at hcon
    | other => simp [rmPath, hf, hk] at h

/-- An entry removed by one step lies at or under the removed path. -/
lemma rmPath_removed_under (fs : FS) (p : String) (e : FSEntry)
    (hmem : e ∈ fs) (hout : e ∉ (rmPath fs p).1) : isUnder p e.path = true := by
  cases hf : fs.find? (fun x => x.path == p) with
  | none =>
    rw [rmPath] at hout
    simp only [hf] at hout
    exact absurd hmem hout
  | some e0 =>
    cases hk : e0.kind with
    | file =>
      rw [rmPath] at hout
      simp only [hf, hk] at hout
      rw [List.mem_filter] at hout
      simp only [hmem, true_and] at hout
      have hp : e.path = p := by
        by_contra hne
        exact hout (by simpa using hne)
      simp [isUnder, hp]
    | dir =>
      rw [rmPath] at hout
      simp only [hf, hk] at hout
      rw [List.mem_filter] at hout
      simp only [hmem, true_and] at hout
      simpa using hout
    | other =>
      rw [rmPath] at hout
      simp only [hf, hk] at hout
      exact absurd hmem hout

/-- The removal loop only ever drops entries. -/
lemma removeLoop_sublist (ps : List String) : ∀ (fs : FS) (b : Bool),
    (removeLoop fs ps b).1.Sublist fs := by
  induction ps with
  | nil => intro fs b; exact List.Sublist.refl fs
  | cons p rest ih => intro fs b; exact (ih _ _).trans (rmPath_sublist fs p)

/-- The loop's flag is set exactly when the flag was already set or some
entry of the incoming filesystem is missing from the outgoing one. -/
lemma removeLoop_flag (ps : List String) : ∀ (fs : FS) (b : Bool),
    ((removeLoop fs ps b).2 = true ↔
      (b = true ∨ ∃ e, e ∈ fs ∧ e ∉ (removeLoop fs ps b).1)) := by
  induction ps with
  | nil =>
    intro fs b
    show b = true ↔ (b = true ∨ ∃ e, e ∈ fs ∧ e ∉ fs)
    simp
  | cons p rest ih =>
    intro fs b
    show (removeLoop (rmPath fs p).1 rest (b || (rmPath fs p).2)).2 = true ↔
      (b = true ∨ ∃ e, e ∈ fs ∧ e ∉ (removeLoop (rmPath fs p).1 rest (b || (rmPath fs p).2)).1)
    cases hr : (rmPath fs p).2 with
    | false =>
      have hfs := rmPath_false_fst fs p hr
      rw [hfs, Bool.or_false]
      exact ih fs b
    | true =>
      obtain ⟨e, hmem, hout⟩ := rmPath_true_removes fs p hr
      constructor
      · intro _
        exact Or.inr ⟨e, hmem, fun hc => hout ((removeLoop_sublist rest _ _).subset hc)⟩
      · intro _
        rw [ih]
        exact Or.inl (by simp)

/-- An entry removed across the loop lies at or under one of the looped
paths. -/
lemma removeLoop_removed (ps : List String) : ∀ (fs : FS) (b : Bool) (e : FSEntry),
    e ∈ fs → e ∉ (removeLoop fs ps b).1 →
    ∃ p, p ∈ ps ∧ isUnder p e.path = true := by
  induction ps with
  | nil => intro fs b e hmem hout; exact absurd hmem hout
  | cons p rest ih =>
    intro fs b e hmem hout
    by_cases h1 : e ∈ (rmPath fs p).1
    · obtain ⟨q, hq, hu⟩ := ih _ _ e h1 hout
      exact ⟨q, List.mem_cons_of_mem p hq, hu⟩
    · exact ⟨p, List.mem_cons_self p rest, rmPath_removed_under fs p e hmem h1⟩

/-- Membership in the candidate list built by the first loop. -/
lemma mem_rm_candidates {gm : String → String → Bool} {fs : FS} {pDev : Nat}
    {delete : List String} {c : String} :
    c ∈ rm_candidates gm fs pDev delete ↔
      ∃ pat, pat ∈ delete ∧
        ∃ e, e ∈ fs ∧ gm pat e.path = true ∧ e.dev = pDev ∧ e.path = c := by
  simp only [rm_candidates, List.mem_flatMap, List.mem_map, List.mem_filter,
    Bool.and_eq_true, beq_iff_eq]
  tauto

/-- C8: `remove_files` returns `true` iff at least one filesystem entry
was actually removed during the call; a candidate of a kind other than
regular file or directory is silently skipped, leaving the filesystem
and the flag of that step unchanged. -/
theorem remove_files_removal_flag (gm : String → String → Bool) (fs : FS)
    (path : String) (delete : List String) (fs' : FS) (b : Bool)
    (g : FS) (p : String) (eo : FSEntry)
    (h : remove_files gm fs path delete = some (fs', b))
    (hg : g.find? (fun x => x.path == p) = some eo) (ho : eo.kind = .other) :
    (b = true ↔ ∃ e, e ∈ fs ∧ e ∉ fs') ∧ rmPath g p = (g, false) := by
  constructor
  · unfold remove_files at h
    cases hf : fs.find? (fun e => e.path == path) with
    | none => rw [hf] at h; exact absurd h (by simp)
    | some anchor =>
      rw [hf, Option.some.injEq] at h
      have hflag := removeLoop_flag (rm_candidates gm fs anchor.dev delete) fs false
      rw [h] at hflag
      simpa using hflag
  · simp [rmPath, hg, ho]

/-- Witness for C8: removing one literal file sets the flag; an `other`
entry is skipped. -/
theorem remove_files_removal_flag_witness :
    ((true : Bool) = true ↔ ∃ e, e ∈ ([⟨"f", 0, .file⟩] : FS) ∧ e ∉ ([] : FS)) ∧
    rmPath ([⟨"o", 0, .other⟩] : FS) "o" = ([⟨"o", 0, .other⟩], false) :=
  remove_files_removal_flag (fun pat p => pat == p) [⟨"f", 0, .file⟩] "f" ["f"] [] true
    [⟨"o", 0, .other⟩] "o" ⟨"o", 0, .other⟩ (by decide) (by decide) rfl

/-- C1 counterexample: the anchor `"a"` has device 0; the glob candidate
`"a/d"` is a directory on device 0 and passes the device check, but the
recursive `shutil.rmtree` removal also deletes `"a/d/m"`, an entry on
device 1 — an entry whose device differs from the anchor's is removed,
and it was never stat-ed against the anchor device. -/
theorem remove_files_cross_device_cex :
    remove_files (fun pat p => pat == p)
        [⟨"a", 0, .dir⟩, ⟨"a/d", 0, .dir⟩, ⟨"a/d/m", 1, .file⟩] "a" ["a/d"]
      = some ([⟨"a", 0, .dir⟩], true) ∧
    (⟨"a/d/m", 1, .file⟩ : FSEntry) ∈
        ([⟨"a", 0, .dir⟩, ⟨"a/d", 0, .dir⟩, ⟨"a/d/m", 1, .file⟩] : FS) ∧
    (⟨"a/d/m", 1, .file⟩ : FSEntry) ∉ ([⟨"a", 0, .dir⟩] : FS) ∧
    ([⟨"a", 0, .dir⟩, ⟨"a/d", 0, .dir⟩, ⟨"a/d/m", 1, .file⟩] : FS).find?
        (fun e => e.path == "a") = some ⟨"a", 0, .dir⟩ ∧
    (1 : Nat) ≠ 0 := by
  decide

/-- C1 (amended): every entry removed by `remove_files` lies at or under
a candidate path, and every candidate path is that of an entry that was
stat-ed equal to the anchor device; moreover (for a well-formed
filesystem with distinct paths) a removed entry whose own path is a
candidate is itself on the anchor device.  Entries removed only as
contents of a candidate directory may lie on a different device. -/
theorem remove_files_device_guard (gm : String → String → Bool) (fs : FS)
    (path : String) (delete : List String) (anchor : FSEntry) (fs' : FS) (b : Bool)
    (e : FSEntry)
    (hnd : (fs.map FSEntry.path).Nodup)
    (ha : fs.find? (fun x => x.path == path) = some anchor)
    (h : remove_files gm fs path delete = some (fs', b))
    (hmem : e ∈ fs) (hout : e ∉ fs') :
    (∃ c, c ∈ rm_candidates gm fs anchor.dev delete ∧ isUnder c e.path = true ∧
       ∃ e2, e2 ∈ fs ∧ e2.path = c ∧ e2.dev = anchor.dev) ∧
    (e.path ∈ rm_candidates gm fs anchor.dev delete → e.dev = anchor.dev) := by
  unfold remove_files at h
  rw [ha, Option.some.injEq] at h
  constructor
  · have hout1 : e ∉ (removeLoop fs (rm_candidates gm fs anchor.dev delete) false).1 := by
      rw [h]
      exact hout
    obtain ⟨c, hc, hu⟩ := removeLoop_removed _ fs false e hmem hout1
    obtain ⟨pat, hpat, e2, he2, hgm, hdev, hpath⟩ := mem_rm_candidates.mp hc
    exact ⟨c, hc, hu, e2, he2, hpath, hdev⟩
  · intro hcand
    obtain ⟨pat, hpat, e2, he2, hgm, hdev, hpath⟩ := mem_rm_candidates.mp hcand
    have he2e : e2 = e := List.inj_on_of_nodup_map hnd he2 hmem hpath
    rw [← he2e]
    exact hdev

/- ### Orchestrator theorems -/

/-- The `changed` flag of a successfully built result is the one passed in. -/
lemma build_result_changed (c : Bool) (s : FsStat) (u : Nat) (r : BuildRes)
    (hb : build_result c s u = .ok r) : r.changed = c := by
  unfold build_result at hb
  split at hb
  · exact absurd hb (by simp)
  · rw [Except.ok.injEq] at hb
    subst hb
    rfl

/-- C3: when the initial check fails and the caller is in check mode or
supplied no (or an empty) delete list, `run_module` fails immediately
with the current statistics, `changed = false`, and the filesystem is
untouched. -/
theorem run_module_reject_unsatisfiable (measure : FS → Option FsStat)
    (gm : String → String → Bool) (fs : FS) (path unitName : String)
    (um : Nat) (wf wi : Int) (d : Option (List String)) (cm : Bool)
    (fstat : FsStat) (r : BuildRes)
    (hu : unit_map unitName = some um)
    (hm : measure fs = some fstat)
    (hc : run_check fstat um wf wi = false)
    (hd : cm = true ∨ eff_delete d = none)
    (hb : build_result false fstat um = .ok r) :
    run_module measure gm fs path unitName wf wi d cm
      = (.failJson (mkMsg r.stat.free unitName wf) r, fs) ∧
    r.changed = false := by
  have hcm : (cm || (eff_delete d).isNone) = true := by
    rcases hd with h | h
    · simp [h]
    · simp [h]
  refine ⟨?_, build_result_changed false fstat um r hb⟩
  simp only [run_module, hu, hm, hc, hcm, hb, Bool.false_eq_true, if_false, if_true]

/-- Witness for C3: dry-run-equivalent rejection at a concrete world. -/
theorem run_module_reject_unsatisfiable_witness :
    run_module (fun _ => some ⟨1000, 10, 100, 5⟩) (fun pat p => pat == p)
        [] "p" "byte" 50 0 none false
      = (.failJson (mkMsg 10 "byte" 50) ⟨false, ⟨10, 1000, 99, 5, 100, 95⟩⟩, []) ∧
    (⟨false, ⟨10, 1000, 99, 5, 100, 95⟩⟩ : BuildRes).changed = false :=
  run_module_reject_unsatisfiable (fun _ => some ⟨1000, 10, 100, 5⟩)
    (fun pat p => pat == p) [] "p" "byte" 1 50 0 none false
    ⟨1000, 10, 100, 5⟩ ⟨false, ⟨10, 1000, 99, 5, 100, 95⟩⟩
    rfl rfl (by decide) (Or.inr rfl) rfl

/-- C9: every failure outcome of `run_module` carries the full result
fields and a message of exactly the form
`Not enough free space: have {free} {unit}, want {want} {unit}`, where
the first placeholder is the reported scaled free space, the second the
requested minimum, and `{unit}` the caller's unit name. -/
theorem fail_msg_format (measure : FS → Option FsStat) (gm : String → String → Bool)
    (fs : FS) (path unitName : String) (wf wi : Int) (d : Option (List String))
    (cm : Bool) (m : String) (r : BuildRes) (fsOut : FS)
    (h : run_module measure gm fs path unitName wf wi d cm = (.failJson m r, fsOut)) :
    m = "Not enough free space: have " ++ toString r.stat.free ++ " " ++ unitName ++
      ", want " ++ toString wf ++ " " ++ unitName := by
  unfold run_module at h
  repeat' split at h
  all_goals simp_all [mkMsg]
  all_goals obtain ⟨⟨h1, h2⟩, -⟩ := h
  all_goals subst h2
  all_goals exact h1.symm

/-- Witness for C9: the rejection message at a concrete world. -/
theorem fail_msg_format_witness :
    mkMsg 10 "byte" 50
      = "Not enough free space: have " ++ toString (10 : Nat) ++ " " ++ "byte" ++
        ", want " ++ toString (50 : Int) ++ " " ++ "byte" :=
  fail_msg_format (fun _ => some ⟨1000, 10, 100, 5⟩) (fun pat p => pat == p)
    [] "p" "byte" 50 0 none false (mkMsg 10 "byte" 50)
    ⟨false, ⟨10, 1000, 99, 5, 100, 95⟩⟩ [] (by decide)

/-- C10: with the default thresholds `free = 0` and `ifree = 0` the
check always succeeds, and `run_module` exits satisfied with
`changed = false` and an untouched filesystem, whatever delete list was
supplied. -/
theorem default_thresholds_satisfied (measure : FS → Option FsStat)
    (gm : String → String → Bool) (fs : FS) (path unitName : String) (um : Nat)
    (d : Option (List String)) (cm : Bool) (fstat : FsStat) (r : BuildRes)
    (hu : unit_map unitName = some um)
    (hm : measure fs = some fstat)
    (hb : build_result false fstat um = .ok r) :
    run_check fstat um 0 0 = true ∧
    run_module measure gm fs path unitName 0 0 d cm = (.exitJson r, fs) ∧
    r.changed = false := by
  have hc : run_check fstat um 0 0 = true := by
    rw [run_check_true_iff]
    exact ⟨Int.natCast_nonneg _, Int.natCast_nonneg _⟩
  refine ⟨hc, ?_, build_result_changed false fstat um r hb⟩
  simp only [run_module, hu, hm, hc, hb, if_true]

/-- Witness for C10: default thresholds at a concrete world with a
non-empty delete list. -/
theorem default_thresholds_satisfied_witness :
    run_check ⟨1000, 10, 100, 5⟩ 1 0 0 = true ∧
    run_module (fun _ => some ⟨1000, 10, 100, 5⟩) (fun pat p => pat == p)
        [] "p" "byte" 0 0 (some ["x"]) false
      = (.exitJson ⟨false, ⟨10, 1000, 99, 5, 100, 95⟩⟩, []) ∧
    (⟨false, ⟨10, 1000, 99, 5, 100, 95⟩⟩ : BuildRes).changed = false :=
  default_thresholds_satisfied (fun _ => some ⟨1000, 10, 100, 5⟩)
    (fun pat p => pat == p) [] "p" "byte" 1 (some ["x"]) false
    ⟨1000, 10, 100, 5⟩ ⟨false, ⟨10, 1000, 99, 5, 100, 95⟩⟩ rfl rfl rfl

/-- Witness for C1 (amended), on the counterexample filesystem: the
removed cross-device entry `"a/d/m"` lies under the same-device candidate
`"a/d"`. -/
theorem remove_files_device_guard_witness :
    (∃ c, c ∈ rm_candidates (fun pat p => pat == p)
          [⟨"a", 0, .dir⟩, ⟨"a/d", 0, .dir⟩, ⟨"a/d/m", 1, .file⟩] 0 ["a/d"] ∧
        isUnder c "a/d/m" = true ∧
        ∃ e2, e2 ∈ ([⟨"a", 0, .dir⟩, ⟨"a/d", 0, .dir⟩, ⟨"a/d/m", 1, .file⟩] : FS) ∧
          e2.path = c ∧ e2.dev = 0) ∧
    ("a/d/m" ∈ rm_candidates (fun pat p => pat == p)
          [⟨"a", 0, .dir⟩, ⟨"a/d", 0, .dir⟩, ⟨"a/d/m", 1, .file⟩] 0 ["a/d"] →
        (1 : Nat) = 0) :=
  remove_files_device_guard (fun pat p => pat == p)
    [⟨"a", 0, .dir⟩, ⟨"a/d", 0, .dir⟩, ⟨"a/d/m", 1, .file⟩] "a" ["a/d"]
    ⟨"a", 0, .dir⟩ [⟨"a", 0, .dir⟩] true ⟨"a/d/m", 1, .file⟩
    (by decide) (by decide) (by decide) (by decide) (by decide)
